import Mathlib

/-!
Verification of the gw-currency-wallet ledger core.

The Go sources are shallowly embedded:
* the `wallets` table is an association list keyed by (user, currency),
  with balances as exact rationals (`NUMERIC(20,2)` in the schema);
* `SaveDeposit` / `SaveWithdraw` follow the PostgreSQL semantics of the
  `INSERT ... ON CONFLICT (user_id, currency) DO UPDATE ...` statements in
  `internal/repositories/wallet.go`;
* the `WalletService` operations of `internal/services/wallet.go`
  (Deposit, Withdraw, GetUserBalance, Exchange, publishTransaction) are
  embedded as pure functions over an environment that injects collaborator
  failures (cache, rate source, storage faults, Kafka), and they record a
  trace of collaborator calls;
* the HTTP handlers' validation logic (deposit.go, the exchange handler)
  is embedded for the claims about request validation.
-/

set_option autoImplicit false

namespace GwWallet

/-- User identifiers (`uuid.UUID` in Go) are abstracted as naturals. -/
abbrev UserId := Nat

/-- Currency codes are plain strings, as in the Go code. -/
abbrev Currency := String

/-- The `wallets` table: one row per (user, currency) with its balance.
The database enforces `UNIQUE (user_id, currency)`; well-formedness of the
row list is tracked by `WF` below. -/
abbrev Wallets := List (UserId × Currency × Rat)

/-- The balance stored for (user, currency): first matching row, if any.
Under `WF` there is at most one matching row. -/
def findRow : Wallets → UserId → Currency → Option Rat
  | [], _, _ => none
  | (u', c', b) :: rest, u, c =>
    if u' = u ∧ c' = c then some b else findRow rest u c

/-- Replace the balance of the first row matching (user, currency). -/
def setBal : Wallets → UserId → Currency → Rat → Wallets
  | [], _, _, _ => []
  | (u', c', b) :: rest, u, c, v =>
    if u' = u ∧ c' = c then (u', c', v) :: rest
    else (u', c', b) :: setBal rest u c v

/-- Error values that cross the embedded interfaces.
`noRows` is `sql.ErrNoRows`; `storage` is an injected infrastructure
failure; `rateUnavailable` is the rate source's failure;
`insufficientFunds` is `services.ErrInsufficientFunds`. -/
inductive Err
  | noRows
  | storage
  | rateUnavailable
  | insufficientFunds
deriving DecidableEq, Repr

/-- `SaveDeposit` (repositories/wallet.go:22):
`INSERT INTO wallets ... VALUES (..., $4=amount, ...) ON CONFLICT
(user_id, currency) DO UPDATE SET balance = wallets.balance +
EXCLUDED.balance RETURNING balance`.
No conflict inserts a row holding `amount`; a conflict adds `amount` to the
existing balance.  The statement always returns one row, so the Go function
only fails on infrastructure errors (injected separately). -/
def saveDeposit : Wallets → UserId → Rat → Currency → Wallets × Rat
  | [], u, amount, c => ([(u, c, amount)], amount)
  | (u', c', b) :: rest, u, amount, c =>
    if u' = u ∧ c' = c then ((u', c', b + amount) :: rest, b + amount)
    else
      let r := saveDeposit rest u amount c
      ((u', c', b) :: r.1, r.2)

/-- `SaveWithdraw` (repositories/wallet.go:44):
`INSERT INTO wallets ... VALUES (..., 0, ...) ON CONFLICT (user_id,
currency) DO UPDATE SET balance = wallets.balance - $4 WHERE
wallets.balance >= $4 RETURNING balance`.
PostgreSQL semantics: with no conflicting row the INSERT creates a
zero-balance row and RETURNING yields it (success); on conflict the
guarded UPDATE runs only when `balance >= amount`, otherwise no row is
produced and `sqlx.GetContext` reports `sql.ErrNoRows`. -/
def saveWithdraw : Wallets → UserId → Rat → Currency → Except Err (Wallets × Rat)
  | [], u, _, c => .ok ([(u, c, 0)], 0)
  | (u', c', b) :: rest, u, amount, c =>
    if u' = u ∧ c' = c then
      if amount ≤ b then .ok ((u', c', b - amount) :: rest, b - amount)
      else .error .noRows
    else
      match saveWithdraw rest u amount c with
      | .ok (w', ret) => .ok ((u', c', b) :: w', ret)
      | .error e => .error e

/-- `GetByUserID` (repositories/wallet.go:83): `SELECT currency, balance
FROM wallets WHERE user_id = $1`, the rows in table order. -/
def getByUserID : Wallets → UserId → List (Currency × Rat)
  | [], _ => []
  | (u', c', b) :: rest, u =>
    if u' = u then (c', b) :: getByUserID rest u else getByUserID rest u

/-- Whether the Go map built from the row list holds the key. -/
def mapHasKey : List (Currency × Rat) → Currency → Bool
  | [], _ => false
  | (c', _) :: rest, c => c' = c || mapHasKey rest c

/-- Lookup in the Go map built by `for _, w := range wallets {
balances[w.Currency] = w.Balance }`: the last row for a currency wins and a
missing key reads as the zero value. -/
def mapGet : List (Currency × Rat) → Currency → Rat
  | [], _ => 0
  | (c', b) :: rest, c =>
    if mapHasKey rest c then mapGet rest c
    else if c' = c then b else mapGet rest c

/-- The (user, currency) keys of the row list. -/
def keys (w : Wallets) : List (UserId × Currency) :=
  w.map (fun e => (e.1, e.2.1))

/-- Well-formedness: the database's `UNIQUE (user_id, currency)` constraint. -/
def WF (w : Wallets) : Prop := (keys w).Nodup

/-- Every stored balance is nonnegative. -/
def NonNeg (w : Wallets) : Prop := ∀ e ∈ w, 0 ≤ e.2.2

/-! ### Service layer (`internal/services/wallet.go`)

The `WalletService` methods are embedded as pure functions over an
environment `Env` that carries the store contents, the Redis rate cache,
the external rate source, injected collaborator faults and the Kafka
configuration.  Each operation additionally returns the trace of
collaborator calls it issued, in order. -/

/-- A collaborator call issued by the service, in program order. -/
inductive Event
  | cacheGet (f t : Currency)
  | cacheSet (f t : Currency) (rate : Rat)
  | sourceGet (f t : Currency)
  | withdraw (u : UserId) (amount : Rat) (c : Currency)
  | deposit (u : UserId) (amount : Rat) (c : Currency)
  | readBalances (u : UserId)
  | publish (amount : Rat)
deriving DecidableEq, Repr

/-- The environment a service call runs against. -/
structure Env where
  /-- contents of the `wallets` table -/
  wallets : Wallets
  /-- rate cache entries keyed by (from, to); an absent pair is a cache
  miss (the cache reports absence and expiry as an error) -/
  cache : List ((Currency × Currency) × Rat)
  /-- rates known to the external rate source; an absent pair makes
  `GetExchangeRateForCurrency` fail -/
  source : List ((Currency × Currency) × Rat)
  /-- injected failure of `SetExchangeRateForCurrency` -/
  cacheSetFault : Bool
  /-- injected infrastructure failure of `SaveWithdraw` -/
  withdrawFault : Bool
  /-- injected infrastructure failure of `SaveDeposit` -/
  depositFault : Bool
  /-- injected infrastructure failure of `GetByUserID` -/
  readFault : Bool
  /-- whether a Kafka writer is configured (`s.kafkaWriter != nil`) -/
  kafkaConfigured : Bool
  /-- injected failure of `kafkaWriter.WriteMessages` -/
  publishFault : Bool
deriving Repr

/-- First-match lookup in a rate table. -/
def rateLookup : List ((Currency × Currency) × Rat) → Currency → Currency → Option Rat
  | [], _, _ => none
  | (p, r) :: rest, f, t =>
    if p.1 = f ∧ p.2 = t then some r else rateLookup rest f t

/-- Redis `SET` on the cache: the new entry shadows any previous one. -/
def cacheInsert (m : List ((Currency × Currency) × Rat)) (f t : Currency)
    (r : Rat) : List ((Currency × Currency) × Rat) :=
  ((f, t), r) :: m

/-- `SaveWithdraw` as seen by the service: the injected infrastructure
fault, or the SQL statement's outcome. -/
def runSaveWithdraw (env : Env) (w : Wallets) (u : UserId) (amount : Rat)
    (c : Currency) : Except Err Wallets :=
  if env.withdrawFault then .error .storage
  else
    match saveWithdraw w u amount c with
    | .ok (w', _) => .ok w'
    | .error e => .error e

/-- `SaveDeposit` as seen by the service: the injected infrastructure
fault, or the (always succeeding) SQL statement. -/
def runSaveDeposit (env : Env) (w : Wallets) (u : UserId) (amount : Rat)
    (c : Currency) : Except Err Wallets :=
  if env.depositFault then .error .storage
  else .ok (saveDeposit w u amount c).1

/-- `GetByUserID` as seen by the service. -/
def runRead (env : Env) (w : Wallets) (u : UserId) :
    Except Err (List (Currency × Rat)) :=
  if env.readFault then .error .storage else .ok (getByUserID w u)

/-- `largeAmountThreshold` (services/wallet.go:21). -/
def largeAmountThreshold : Rat := 30000

/-- `publishTransaction` (services/wallet.go:90): skip when no Kafka
writer is configured, skip when `txn.Amount < largeAmountThreshold`,
otherwise attempt `WriteMessages`; its failure is only logged.  The
returned trace records the publish attempt. -/
def publishTransaction (env : Env) (amount : Rat) : List Event :=
  if ¬ env.kafkaConfigured then []
  else if amount < largeAmountThreshold then []
  else [.publish amount]

/-- Result of `Deposit`/`Withdraw`/`GetUserBalance`: the three named
balances plus the returned error, exactly as the Go multiple return. -/
structure TripleOut where
  usd : Rat
  rub : Rat
  eur : Rat
  err : Option Err
deriving DecidableEq, Repr

/-- `WalletService.Deposit` (services/wallet.go:120): save, read back,
publish; errors from the store and the reader are propagated unchanged. -/
def depositSvc (env : Env) (u : UserId) (amount : Rat) (c : Currency) :
    TripleOut × Wallets × List Event :=
  match runSaveDeposit env env.wallets u amount c with
  | .error e => (⟨0, 0, 0, some e⟩, env.wallets, [.deposit u amount c])
  | .ok w' =>
    match runRead env w' u with
    | .error e => (⟨0, 0, 0, some e⟩, w', [.deposit u amount c, .readBalances u])
    | .ok m =>
      (⟨mapGet m "USD", mapGet m "RUB", mapGet m "EUR", none⟩, w',
        [.deposit u amount c, .readBalances u] ++ publishTransaction env amount)

/-- `WalletService.Withdraw` (services/wallet.go:147): identical shape;
note that a `SaveWithdraw` failure is returned unchanged, with no
translation to `ErrInsufficientFunds`. -/
def withdrawSvc (env : Env) (u : UserId) (amount : Rat) (c : Currency) :
    TripleOut × Wallets × List Event :=
  match runSaveWithdraw env env.wallets u amount c with
  | .error e => (⟨0, 0, 0, some e⟩, env.wallets, [.withdraw u amount c])
  | .ok w' =>
    match runRead env w' u with
    | .error e => (⟨0, 0, 0, some e⟩, w', [.withdraw u amount c, .readBalances u])
    | .ok m =>
      (⟨mapGet m "USD", mapGet m "RUB", mapGet m "EUR", none⟩, w',
        [.withdraw u amount c, .readBalances u] ++ publishTransaction env amount)

/-- The rate-resolution prefix of `Exchange` (services/wallet.go:195-206):
try the cache; on a cache error fall back to the source; on source success
attempt the cache write-back, whose failure is only logged.  Returns the
resolved rate (`none` when cache and source both failed), the resulting
cache contents and the trace. -/
def resolveRate (env : Env) (f t : Currency) :
    Option Rat × List ((Currency × Currency) × Rat) × List Event :=
  match rateLookup env.cache f t with
  | some r => (some r, env.cache, [.cacheGet f t])
  | none =>
    match rateLookup env.source f t with
    | none => (none, env.cache, [.cacheGet f t, .sourceGet f t])
    | some r =>
      ((some r),
        (if env.cacheSetFault then env.cache else cacheInsert env.cache f t r),
        [.cacheGet f t, .sourceGet f t, .cacheSet f t r])

/-- Result of `Exchange`: the converted amount, the three balances and the
returned error, as the Go multiple return. -/
structure ExchangeOut where
  exchanged : Rat
  usd : Rat
  rub : Rat
  eur : Rat
  err : Option Err
deriving DecidableEq, Repr

/-- `WalletService.Exchange` (services/wallet.go:194): resolve the rate
(cache then source, best-effort write-back), withdraw the source currency
(any failure is returned as `ErrInsufficientFunds`), compute
`exchangedAmount = amount * rate`, deposit it into the target currency
(failure returned unchanged), read back the balances.  No publish call is
made.  Returns the output, the final store, the final cache and the trace. -/
def exchangeSvc (env : Env) (u : UserId) (f t : Currency) (amount : Rat) :
    ExchangeOut × Wallets × List ((Currency × Currency) × Rat) × List Event :=
  match resolveRate env f t with
  | (none, cache', evs) =>
    (⟨0, 0, 0, 0, some .rateUnavailable⟩, env.wallets, cache', evs)
  | (some rate, cache', evs) =>
    match runSaveWithdraw env env.wallets u amount f with
    | .error _ =>
      (⟨0, 0, 0, 0, some .insufficientFunds⟩, env.wallets, cache',
        evs ++ [.withdraw u amount f])
    | .ok w1 =>
      let ex := amount * rate
      match runSaveDeposit env w1 u ex t with
      | .error e =>
        (⟨ex, 0, 0, 0, some e⟩, w1, cache',
          evs ++ [.withdraw u amount f, .deposit u ex t])
      | .ok w2 =>
        match runRead env w2 u with
        | .error e =>
          (⟨ex, 0, 0, 0, some e⟩, w2, cache',
            evs ++ [.withdraw u amount f, .deposit u ex t, .readBalances u])
        | .ok m =>
          (⟨ex, mapGet m "USD", mapGet m "RUB", mapGet m "EUR", none⟩, w2, cache',
            evs ++ [.withdraw u amount f, .deposit u ex t, .readBalances u])

/-! ### Handler layer -/

/-- HTTP outcomes relevant to the claims. -/
inductive HStatus
  | okResp
  | badRequest
  | unauthorizedResp
  | internalError
deriving DecidableEq, Repr

/-- The currency whitelist of the deposit handler
(`handlers/deposit.go:89`). -/
def validCurrency (c : Currency) : Bool :=
  c = "USD" || c = "RUB" || c = "EUR"

/-- The exchange HTTP handler (`NewExchangeHandler`): after auth and JSON
decoding it rejects `req.Amount <= 0`, with no currency check, then calls
`Exchange`; `ErrInsufficientFunds` maps to 400, other errors to 500. -/
def exchangeHandler (env : Env) (authOk decodeOk : Bool) (u : UserId)
    (f t : Currency) (amount : Rat) : HStatus × Wallets × List Event :=
  if ¬ authOk then (.unauthorizedResp, env.wallets, [])
  else if ¬ decodeOk ∨ amount ≤ 0 then (.badRequest, env.wallets, [])
  else
    let r := exchangeSvc env u f t amount
    match r.1.err with
    | some .insufficientFunds => (.badRequest, r.2.1, r.2.2.2)
    | some _ => (.internalError, r.2.1, r.2.2.2)
    | none => (.okResp, r.2.1, r.2.2.2)

/-- The deposit HTTP handler (`handlers/deposit.go:85`): after auth and
decoding it rejects `amount <= 0` and currencies outside the whitelist,
then calls `Deposit`; a service error maps to 500. -/
def depositHandler (env : Env) (authOk decodeOk : Bool) (u : UserId)
    (amount : Rat) (c : Currency) : HStatus × Wallets × List Event :=
  if ¬ authOk then (.unauthorizedResp, env.wallets, [])
  else if ¬ decodeOk then (.badRequest, env.wallets, [])
  else if amount ≤ 0 then (.badRequest, env.wallets, [])
  else if ¬ validCurrency c then (.badRequest, env.wallets, [])
  else
    let r := depositSvc env u amount c
    match r.1.err with
    | some _ => (.internalError, r.2.1, r.2.2)
    | none => (.okResp, r.2.1, r.2.2)

/-! ### Auxiliary executable predicates -/

instance exceptDecEq {α β : Type} [DecidableEq α] [DecidableEq β] :
    DecidableEq (Except α β)
  | .ok a, .ok b => decidable_of_iff (a = b) (by simp)
  | .error a, .error b => decidable_of_iff (a = b) (by simp)
  | .ok _, .error _ => .isFalse (by simp)
  | .error _, .ok _ => .isFalse (by simp)

/-- Whether a store call succeeded. -/
def exceptOk {α : Type} : Except Err α → Bool
  | .ok _ => true
  | .error _ => false

/-- Whether an event is a Kafka publish attempt. -/
def isPublishEvent : Event → Bool
  | .publish _ => true
  | _ => false

/-- Whether an event is a store mutation (a `SaveWithdraw` or a
`SaveDeposit` call). -/
def isMutationEvent : Event → Bool
  | .withdraw _ _ _ => true
  | .deposit _ _ _ => true
  | _ => false

instance decWF (w : Wallets) : Decidable (WF w) :=
  inferInstanceAs (Decidable (keys w).Nodup)

instance decNonNeg (w : Wallets) : Decidable (NonNeg w) :=
  inferInstanceAs (Decidable (∀ e ∈ w, 0 ≤ e.2.2))

/-- A Balance Store operation, for reasoning about call sequences. -/
inductive StoreOp
  | dep (u : UserId) (amount : Rat) (c : Currency)
  | wd (u : UserId) (amount : Rat) (c : Currency)
  | read (u : UserId)
deriving DecidableEq, Repr

/-- Effect of one store operation on the table; a failed `SaveWithdraw`
leaves it unchanged and `GetByUserID` is read-only. -/
def applyOp (w : Wallets) : StoreOp → Wallets
  | .dep u amount c => (saveDeposit w u amount c).1
  | .wd u amount c =>
    match saveWithdraw w u amount c with
    | .ok (w', _) => w'
    | .error _ => w
  | .read _ => w

/-- The amount guard of the claims: mutation amounts are positive. -/
def validOp : StoreOp → Bool
  | .dep _ amount _ => 0 < amount
  | .wd _ amount _ => 0 < amount
  | .read _ => true

/-! ### Basic lemmas about the store primitives -/

theorem findRow_mem {w : Wallets} {u : UserId} {c : Currency} {b : Rat}
    (h : findRow w u c = some b) : (u, c, b) ∈ w := by
  induction w with
  | nil => simp [findRow] at h
  | cons e rest ih =>
    obtain ⟨u', c', b'⟩ := e
    by_cases hm : u' = u ∧ c' = c
    · rw [findRow, if_pos hm] at h
      obtain ⟨rfl, rfl⟩ := hm
      injection h with hb
      subst hb
      exact List.mem_cons_self _ _
    · rw [findRow, if_neg hm] at h
      exact List.mem_cons_of_mem _ (ih h)

theorem findRow_setBal_self {w : Wallets} {u : UserId} {c : Currency} {b : Rat}
    (h : findRow w u c = some b) (v : Rat) :
    findRow (setBal w u c v) u c = some v := by
  induction w with
  | nil => simp [findRow] at h
  | cons e rest ih =>
    obtain ⟨u', c', b'⟩ := e
    by_cases hm : u' = u ∧ c' = c
    · rw [setBal, if_pos hm, findRow, if_pos hm]
    · rw [findRow, if_neg hm] at h
      rw [setBal, if_neg hm, findRow, if_neg hm]
      exact ih h

theorem findRow_setBal_other {w : Wallets} {u : UserId} {c : Currency} (v : Rat)
    {u' : UserId} {c' : Currency} (h : ¬(u' = u ∧ c' = c)) :
    findRow (setBal w u c v) u' c' = findRow w u' c' := by
  induction w with
  | nil => rfl
  | cons e rest ih =>
    obtain ⟨u₀, c₀, b₀⟩ := e
    by_cases hm : u₀ = u ∧ c₀ = c
    · rw [setBal, if_pos hm]
      have hne : ¬(u₀ = u' ∧ c₀ = c') := by
        rintro ⟨rfl, rfl⟩
        exact h ⟨hm.1, hm.2⟩
      rw [findRow, if_neg hne, findRow, if_neg hne]
    · rw [setBal, if_neg hm]
      by_cases hh : u₀ = u' ∧ c₀ = c'
      · rw [findRow, if_pos hh, findRow, if_pos hh]
      · rw [findRow, if_neg hh, findRow, if_neg hh]
        exact ih

theorem keys_setBal (w : Wallets) (u : UserId) (c : Currency) (v : Rat) :
    keys (setBal w u c v) = keys w := by
  induction w with
  | nil => rfl
  | cons e rest ih =>
    obtain ⟨u', c', b'⟩ := e
    by_cases hm : u' = u ∧ c' = c
    · rw [setBal, if_pos hm]
      rfl
    · rw [setBal, if_neg hm]
      simp only [keys, List.map_cons] at ih ⊢
      rw [ih]

theorem setBal_nonneg {w : Wallets} {u : UserId} {c : Currency} {v : Rat}
    (hw : NonNeg w) (hv : 0 ≤ v) : NonNeg (setBal w u c v) := by
  induction w with
  | nil => intro e he; cases he
  | cons e₀ rest ih =>
    obtain ⟨u', c', b'⟩ := e₀
    have hrest : NonNeg rest := fun e he => hw e (List.mem_cons_of_mem _ he)
    by_cases hm : u' = u ∧ c' = c
    · rw [setBal, if_pos hm]
      intro e he
      rcases List.mem_cons.mp he with rfl | he'
      · exact hv
      · exact hrest e he'
    · rw [setBal, if_neg hm]
      intro e he
      rcases List.mem_cons.mp he with rfl | he'
      · exact hw _ (List.mem_cons_self _ _)
      · exact ih hrest e he'

/-! ### Characterization of the store mutations -/

theorem saveDeposit_found {w : Wallets} {u : UserId} {c : Currency} {b : Rat}
    (h : findRow w u c = some b) (amount : Rat) :
    saveDeposit w u amount c = (setBal w u c (b + amount), b + amount) := by
  induction w with
  | nil => simp [findRow] at h
  | cons e rest ih =>
    obtain ⟨u', c', b'⟩ := e
    by_cases hm : u' = u ∧ c' = c
    · rw [findRow, if_pos hm] at h
      injection h with hb
      subst hb
      rw [saveDeposit, if_pos hm, setBal, if_pos hm]
    · rw [findRow, if_neg hm] at h
      rw [saveDeposit, if_neg hm, setBal, if_neg hm]
      rw [ih h]

theorem saveDeposit_notFound {w : Wallets} {u : UserId} {c : Currency}
    (h : findRow w u c = none) (amount : Rat) :
    saveDeposit w u amount c = (w ++ [(u, c, amount)], amount) := by
  induction w with
  | nil => rfl
  | cons e rest ih =>
    obtain ⟨u', c', b'⟩ := e
    by_cases hm : u' = u ∧ c' = c
    · rw [findRow, if_pos hm] at h
      cases h
    · rw [findRow, if_neg hm] at h
      rw [saveDeposit, if_neg hm, ih h]
      rfl

theorem saveWithdraw_found_ge {w : Wallets} {u : UserId} {c : Currency}
    {b : Rat} (h : findRow w u c = some b) {amount : Rat} (hle : amount ≤ b) :
    saveWithdraw w u amount c = .ok (setBal w u c (b - amount), b - amount) := by
  induction w with
  | nil => simp [findRow] at h
  | cons e rest ih =>
    obtain ⟨u', c', b'⟩ := e
    by_cases hm : u' = u ∧ c' = c
    · rw [findRow, if_pos hm] at h
      injection h with hb
      subst hb
      rw [saveWithdraw, if_pos hm, if_pos hle, setBal, if_pos hm]
    · rw [findRow, if_neg hm] at h
      rw [saveWithdraw, if_neg hm, setBal, if_neg hm, ih h]

theorem saveWithdraw_found_lt {w : Wallets} {u : UserId} {c : Currency}
    {b : Rat} (h : findRow w u c = some b) {amount : Rat} (hlt : b < amount) :
    saveWithdraw w u amount c = .error .noRows := by
  induction w with
  | nil => simp [findRow] at h
  | cons e rest ih =>
    obtain ⟨u', c', b'⟩ := e
    by_cases hm : u' = u ∧ c' = c
    · rw [findRow, if_pos hm] at h
      injection h with hb
      subst hb
      rw [saveWithdraw, if_pos hm, if_neg (not_le.mpr hlt)]
    · rw [findRow, if_neg hm] at h
      rw [saveWithdraw, if_neg hm, ih h]

theorem saveWithdraw_notFound {w : Wallets} {u : UserId} {c : Currency}
    (h : findRow w u c = none) (amount : Rat) :
    saveWithdraw w u amount c = .ok (w ++ [(u, c, 0)], 0) := by
  induction w with
  | nil => rfl
  | cons e rest ih =>
    obtain ⟨u', c', b'⟩ := e
    by_cases hm : u' = u ∧ c' = c
    · rw [findRow, if_pos hm] at h
      cases h
    · rw [findRow, if_neg hm] at h
      rw [saveWithdraw, if_neg hm, ih h]
      rfl

theorem findRow_append_self {w : Wallets} {u : UserId} {c : Currency}
    (h : findRow w u c = none) (v : Rat) :
    findRow (w ++ [(u, c, v)]) u c = some v := by
  induction w with
  | nil => simp [findRow]
  | cons e rest ih =>
    obtain ⟨u', c', b'⟩ := e
    by_cases hm : u' = u ∧ c' = c
    · rw [findRow, if_pos hm] at h
      cases h
    · rw [findRow, if_neg hm] at h
      rw [List.cons_append, findRow, if_neg hm]
      exact ih h

theorem findRow_append_other (w : Wallets) (u : UserId) (c : Currency) (v : Rat)
    {u' : UserId} {c' : Currency} (h : ¬(u' = u ∧ c' = c)) :
    findRow (w ++ [(u, c, v)]) u' c' = findRow w u' c' := by
  induction w with
  | nil =>
    have hne : ¬(u = u' ∧ c = c') := by
      rintro ⟨rfl, rfl⟩
      exact h ⟨rfl, rfl⟩
    simp [findRow, hne]
  | cons e rest ih =>
    obtain ⟨u₀, c₀, b₀⟩ := e
    by_cases hh : u₀ = u' ∧ c₀ = c'
    · rw [List.cons_append, findRow, if_pos hh, findRow, if_pos hh]
    · rw [List.cons_append, findRow, if_neg hh, findRow, if_neg hh]
      exact ih

theorem findRow_eq_none_iff {w : Wallets} {u : UserId} {c : Currency} :
    findRow w u c = none ↔ (u, c) ∉ keys w := by
  induction w with
  | nil => simp [findRow, keys]
  | cons e rest ih =>
    obtain ⟨u', c', b'⟩ := e
    by_cases hm : u' = u ∧ c' = c
    · rw [findRow, if_pos hm]
      simp only [keys, List.map_cons, List.mem_cons]
      constructor
      · intro h; cases h
      · intro h
        exact absurd (Or.inl (by simp [hm.1, hm.2])) h
    · rw [findRow, if_neg hm]
      simp only [keys, List.map_cons, List.mem_cons] at ih ⊢
      rw [ih]
      constructor
      · intro h hmem
        rcases hmem with heq | hmem
        · apply hm
          constructor
          · exact (Prod.mk.injEq _ _ _ _ ▸ heq.symm).1
          · exact (Prod.mk.injEq _ _ _ _ ▸ heq.symm).2
        · exact h hmem
      · intro h hmem
        exact h (Or.inr hmem)

theorem keys_append_one (w : Wallets) (u : UserId) (c : Currency) (v : Rat) :
    keys (w ++ [(u, c, v)]) = keys w ++ [(u, c)] := by
  simp [keys]

theorem WF_setBal {w : Wallets} (hw : WF w) (u : UserId) (c : Currency) (v : Rat) :
    WF (setBal w u c v) := by
  unfold WF
  rw [keys_setBal]
  exact hw

theorem WF_append_one {w : Wallets} (hw : WF w) {u : UserId} {c : Currency}
    (hno : findRow w u c = none) (v : Rat) : WF (w ++ [(u, c, v)]) := by
  unfold WF
  rw [keys_append_one]
  refine List.Nodup.append hw (List.nodup_singleton _) ?_
  intro a ha hmem
  simp only [List.mem_singleton] at hmem
  subst hmem
  exact findRow_eq_none_iff.mp hno ha

theorem nonNeg_append_one {w : Wallets} (hw : NonNeg w) {u : UserId}
    {c : Currency} {v : Rat} (hv : 0 ≤ v) : NonNeg (w ++ [(u, c, v)]) := by
  intro e he
  rcases List.mem_append.mp he with h | h
  · exact hw e h
  · simp only [List.mem_singleton] at h
    subst h
    exact hv

/-! ### The Go map built by `GetByUserID` agrees with `findRow` on
well-formed stores -/

theorem mapHasKey_getByUserID_false {w : Wallets} {u : UserId} {c : Currency}
    (h : (u, c) ∉ keys w) : mapHasKey (getByUserID w u) c = false := by
  induction w with
  | nil => rfl
  | cons e rest ih =>
    obtain ⟨u', c', b'⟩ := e
    simp only [keys, List.map_cons, List.mem_cons] at h
    push_neg at h
    obtain ⟨hne, hrest⟩ := h
    have ihr := ih (by simpa [keys] using hrest)
    by_cases hu : u' = u
    · rw [getByUserID, if_pos hu, mapHasKey, ihr]
      have hcc : c' ≠ c := by
        intro hc
        exact hne (by simp [hu, hc])
      simp [hcc]
    · rw [getByUserID, if_neg hu]
      exact ihr

theorem mapGet_getByUserID {w : Wallets} (hw : WF w) (u : UserId) (c : Currency) :
    mapGet (getByUserID w u) c = (findRow w u c).getD 0 := by
  induction w with
  | nil => rfl
  | cons e rest ih =>
    obtain ⟨u', c', b'⟩ := e
    have hw0 : ((u', c') :: keys rest).Nodup := hw
    obtain ⟨hnotin, hw'⟩ := List.nodup_cons.mp hw0
    by_cases hu : u' = u
    · subst hu
      by_cases hc : c' = c
      · subst hc
        have hm : u' = u' ∧ c' = c' := ⟨rfl, rfl⟩
        rw [findRow, if_pos hm, getByUserID, if_pos rfl, mapGet,
          mapHasKey_getByUserID_false hnotin]
        simp
      · have hm : ¬(u' = u' ∧ c' = c) := fun h => hc h.2
        rw [findRow, if_neg hm, getByUserID, if_pos rfl, mapGet]
        rw [if_neg hc, ite_self]
        exact ih hw'
    · have hm : ¬(u' = u ∧ c' = c) := fun h => hu h.1
      rw [findRow, if_neg hm, getByUserID, if_neg hu]
      exact ih hw'

/-- One valid store operation preserves nonnegativity of all balances. -/
theorem applyOp_nonneg {w : Wallets} (hw : NonNeg w) {op : StoreOp}
    (hop : validOp op = true) : NonNeg (applyOp w op) := by
  cases op with
  | dep u amount c =>
    have hamount : (0 : Rat) < amount := by simpa [validOp] using hop
    cases hfr : findRow w u c with
    | some b =>
      have hb : (0 : Rat) ≤ b := hw _ (findRow_mem hfr)
      simp only [applyOp, saveDeposit_found hfr]
      exact setBal_nonneg hw (by linarith)
    | none =>
      simp only [applyOp, saveDeposit_notFound hfr]
      exact nonNeg_append_one hw hamount.le
  | wd u amount c =>
    cases hfr : findRow w u c with
    | some b =>
      by_cases hle : amount ≤ b
      · have hb : (0 : Rat) ≤ b := hw _ (findRow_mem hfr)
        simp only [applyOp, saveWithdraw_found_ge hfr hle]
        exact setBal_nonneg hw (by linarith)
      · simp only [applyOp, saveWithdraw_found_lt hfr (not_le.mp hle)]
        exact hw
    | none =>
      simp only [applyOp, saveWithdraw_notFound hfr]
      exact nonNeg_append_one hw le_rfl
  | read u => exact hw

/-! ### Claims -/

/-- C1 is false as stated: when no row exists for (user, currency), the
`INSERT ... ON CONFLICT` of `SaveWithdraw` inserts a fresh zero-balance row
and succeeds — it does not fail with an `InsufficientFunds`-class error,
and a new row is created.  Concretely, withdrawing 5 USD for user 0 from
an empty store returns success and leaves a (0, "USD", 0) row behind. -/
theorem SaveWithdraw_missing_row_succeeds :
    findRow ([] : Wallets) 0 "USD" = none ∧
    saveWithdraw ([] : Wallets) 0 5 "USD" = .ok ([(0, "USD", 0)], 0) ∧
    findRow [(0, "USD", (0 : Rat))] 0 "USD" = some 0 := by
  refine ⟨rfl, by decide, by decide⟩

/-- C1 (amended): if a row for (user, currency) exists with balance
strictly below the amount, `SaveWithdraw` fails with the conditional-check
error (`sql.ErrNoRows`), leaving the store unchanged; if no row exists,
`SaveWithdraw` succeeds, creating a fresh zero-balance row and debiting
nothing, so no existing balance ever changes on a failed check. -/
theorem SaveWithdraw_conditional_check (w : Wallets) (u : UserId)
    (c : Currency) (amount : Rat) :
    (∀ b, findRow w u c = some b → b < amount →
      saveWithdraw w u amount c = .error .noRows) ∧
    (findRow w u c = none →
      saveWithdraw w u amount c = .ok (w ++ [(u, c, 0)], 0) ∧
      findRow (w ++ [(u, c, 0)]) u c = some 0) := by
  constructor
  · intro b hb hlt
    exact saveWithdraw_found_lt hb hlt
  · intro h
    exact ⟨saveWithdraw_notFound h amount, findRow_append_self h 0⟩

/-- Witness for the amended C1 at concrete inputs. -/
theorem SaveWithdraw_conditional_check_witness :
    saveWithdraw [(0, "USD", (3 : Rat))] 0 5 "USD" = .error .noRows ∧
    saveWithdraw [(7, "EUR", (2 : Rat))] 0 5 "USD"
      = .ok ([(7, "EUR", (2 : Rat))] ++ [(0, "USD", 0)], 0) := by
  constructor
  · exact (SaveWithdraw_conditional_check [(0, "USD", 3)] 0 "USD" 5).1 3
      (by decide) (by decide)
  · exact ((SaveWithdraw_conditional_check [(7, "EUR", 2)] 0 "USD" 5).2
      (by decide)).1

/-- C3 is false as stated: when the store's conditional withdrawal check
fails (user 0 holds 10 USD, withdrawing 50), the Wallet service's
`Withdraw` returns the store-specific `sql.ErrNoRows`, not the named
`ErrInsufficientFunds` value. -/
theorem Withdraw_returns_store_error :
    (withdrawSvc ⟨[(0, "USD", 10)], [], [], false, false, false, false,
        false, false⟩ 0 50 "USD").1.err = some Err.noRows ∧
    Err.noRows ≠ Err.insufficientFunds := by decide

/-- C3 (amended): the Wallet service's `Withdraw` propagates whatever
error `SaveWithdraw` returned, unchanged — a conditional-check failure
surfaces as the store-specific `sql.ErrNoRows`, and callers must inspect
store error types; the translation to `ErrInsufficientFunds` exists only
inside `Exchange`. -/
theorem Withdraw_propagates_store_error (env : Env) (u : UserId)
    (amount : Rat) (c : Currency) (e : Err)
    (h : runSaveWithdraw env env.wallets u amount c = .error e) :
    (withdrawSvc env u amount c).1.err = some e := by
  unfold withdrawSvc
  rw [h]

/-- Witness for the amended C3 at a concrete store. -/
theorem Withdraw_propagates_store_error_witness :
    (withdrawSvc ⟨[(3, "EUR", 1)], [], [], false, false, false, false,
        false, false⟩ 3 2 "EUR").1.err = some Err.noRows :=
  Withdraw_propagates_store_error
    ⟨[(3, "EUR", 1)], [], [], false, false, false, false, false, false⟩
    3 2 "EUR" Err.noRows (by decide)

/-- C4: starting from a store with all balances ≥ 0, any sequence of store
operations — `SaveDeposit` and `SaveWithdraw` with positive amounts
(successful or failed) and read-only `GetByUserID` — preserves
nonnegativity of every stored balance; in particular after any sequence of
withdrawals every stored (user, currency) balance is still ≥ 0. -/
theorem store_nonneg_invariant (ops : List StoreOp) (w : Wallets)
    (hw : NonNeg w) (hops : ∀ op ∈ ops, validOp op = true) :
    NonNeg (ops.foldl applyOp w) ∧
    ∀ u c b, findRow (ops.foldl applyOp w) u c = some b → 0 ≤ b := by
  have hnn : NonNeg (ops.foldl applyOp w) := by
    induction ops generalizing w with
    | nil => exact hw
    | cons op rest ih =>
      rw [List.foldl_cons]
      exact ih (applyOp w op)
        (applyOp_nonneg hw (hops op (List.mem_cons_self _ _)))
        (fun op' h' => hops op' (List.mem_cons_of_mem _ h'))
  exact ⟨hnn, fun u c b h => hnn _ (findRow_mem h)⟩

/-- Witness for C4: a run with two successful withdrawals, one failed
withdrawal and a deposit keeps every balance nonnegative. -/
theorem store_nonneg_invariant_witness :
    NonNeg [(0, "USD", (100 : Rat))] ∧
    NonNeg ([StoreOp.wd 0 30 "USD", StoreOp.wd 0 50 "USD",
      StoreOp.wd 0 40 "USD", StoreOp.dep 0 5 "EUR",
      StoreOp.read 0].foldl applyOp [(0, "USD", (100 : Rat))]) := by
  have h := store_nonneg_invariant
    [StoreOp.wd 0 30 "USD", StoreOp.wd 0 50 "USD", StoreOp.wd 0 40 "USD",
      StoreOp.dep 0 5 "EUR", StoreOp.read 0]
    [(0, "USD", (100 : Rat))] (by decide) (by decide)
  exact ⟨by decide, h.1⟩

/-- Every event issued by the rate-resolution prefix of `Exchange` is a
cache or source call. -/
theorem resolveRate_events (env : Env) (f t : Currency) :
    ∀ ev ∈ (resolveRate env f t).2.2,
      ev = .cacheGet f t ∨ ev = .sourceGet f t ∨ ∃ r, ev = .cacheSet f t r := by
  unfold resolveRate
  cases h1 : rateLookup env.cache f t with
  | some r =>
    intro ev hev
    simp only [List.mem_singleton] at hev
    exact Or.inl hev
  | none =>
    cases h2 : rateLookup env.source f t with
    | none =>
      intro ev hev
      rcases List.mem_cons.mp hev with rfl | hev
      · exact Or.inl rfl
      · simp only [List.mem_singleton] at hev
        exact Or.inr (Or.inl hev)
    | some r =>
      intro ev hev
      rcases List.mem_cons.mp hev with rfl | hev
      · exact Or.inl rfl
      · rcases List.mem_cons.mp hev with rfl | hev
        · exact Or.inr (Or.inl rfl)
        · simp only [List.mem_singleton] at hev
          exact Or.inr (Or.inr ⟨r, hev⟩)

/-- No rate-resolution event is a store mutation. -/
theorem resolveRate_no_mutation (env : Env) (f t : Currency) :
    ∀ ev ∈ (resolveRate env f t).2.2, isMutationEvent ev = false := by
  intro ev hev
  rcases resolveRate_events env f t ev hev with rfl | rfl | ⟨r, rfl⟩ <;> rfl

/-- No rate-resolution event is a publish attempt. -/
theorem resolveRate_no_publish (env : Env) (f t : Currency) :
    ∀ ev ∈ (resolveRate env f t).2.2, isPublishEvent ev = false := by
  intro ev hev
  rcases resolveRate_events env f t ev hev with rfl | rfl | ⟨r, rfl⟩ <;> rfl

/-- The trace of `Exchange`: the rate-resolution events; then, only when a
rate was resolved, the withdraw call; then, only when the withdraw
succeeded, the deposit call and possibly the balance read. -/
theorem exchangeSvc_events_shape (env : Env) (u : UserId) (f t : Currency)
    (amount : Rat) :
    ((exchangeSvc env u f t amount).2.2.2 = (resolveRate env f t).2.2 ∧
      (resolveRate env f t).1 = none) ∨
    ((exchangeSvc env u f t amount).2.2.2
        = (resolveRate env f t).2.2 ++ [.withdraw u amount f] ∧
      exceptOk (runSaveWithdraw env env.wallets u amount f) = false) ∨
    (∃ rate tail,
      (resolveRate env f t).1 = some rate ∧
      exceptOk (runSaveWithdraw env env.wallets u amount f) = true ∧
      (exchangeSvc env u f t amount).2.2.2
        = (resolveRate env f t).2.2
            ++ .withdraw u amount f :: .deposit u (amount * rate) t :: tail ∧
      (tail = [] ∨ tail = [.readBalances u])) := by
  rcases hrr : resolveRate env f t with ⟨ro, cache', evs⟩
  cases ro with
  | none =>
    left
    unfold exchangeSvc
    rw [hrr]
    exact ⟨rfl, rfl⟩
  | some rate =>
    cases hw : runSaveWithdraw env env.wallets u amount f with
    | error e =>
      right; left
      constructor
      · unfold exchangeSvc
        simp only [hrr, hw]
      · rfl
    | ok w1 =>
      right; right
      cases hd : runSaveDeposit env w1 u (amount * rate) t with
      | error e =>
        refine ⟨rate, [], rfl, rfl, ?_, Or.inl rfl⟩
        unfold exchangeSvc
        simp only [hrr, hw, hd]
      | ok w2 =>
        cases hr2 : runRead env w2 u with
        | error e =>
          refine ⟨rate, [.readBalances u], rfl, rfl, ?_, Or.inr rfl⟩
          unfold exchangeSvc
          simp only [hrr, hw, hd, hr2]
        | ok m =>
          refine ⟨rate, [.readBalances u], rfl, rfl, ?_, Or.inr rfl⟩
          unfold exchangeSvc
          simp only [hrr, hw, hd, hr2]

/-- C5: when Exchange's withdrawal step fails — for any reason — the call
returns `ErrInsufficientFunds`, the store is left untouched and no deposit
call is issued; moreover, in every Exchange trace a deposit call occurs
only strictly after the withdraw call has been issued and has succeeded. -/
theorem Exchange_withdraw_before_deposit (env : Env) (u : UserId)
    (f t : Currency) (amount : Rat) :
    (∀ rate cache' evs e,
      resolveRate env f t = (some rate, cache', evs) →
      runSaveWithdraw env env.wallets u amount f = .error e →
      (exchangeSvc env u f t amount).1.err = some .insufficientFunds ∧
      (exchangeSvc env u f t amount).2.1 = env.wallets ∧
      ∀ u' a' c', Event.deposit u' a' c' ∉ (exchangeSvc env u f t amount).2.2.2) ∧
    (∀ u' a' c', Event.deposit u' a' c' ∈ (exchangeSvc env u f t amount).2.2.2 →
      exceptOk (runSaveWithdraw env env.wallets u amount f) = true ∧
      ∃ pre post,
        (exchangeSvc env u f t amount).2.2.2
          = pre ++ Event.withdraw u amount f :: post ∧
        Event.deposit u' a' c' ∈ post) := by
  constructor
  · intro rate cache' evs e hrr hw
    unfold exchangeSvc
    rw [hrr, hw]
    refine ⟨rfl, rfl, ?_⟩
    intro u' a' c' hmem
    dsimp only at hmem
    rcases List.mem_append.mp hmem with h | h
    · have hmut := resolveRate_no_mutation env f t _ (by rw [hrr]; exact h)
      simp [isMutationEvent] at hmut
    · simp at h
  · intro u' a' c' hmem
    rcases exchangeSvc_events_shape env u f t amount with
      ⟨hev, _⟩ | ⟨hev, hok⟩ | ⟨rate, tail, hro, hok, hev, htail⟩
    · rw [hev] at hmem
      have hmut := resolveRate_no_mutation env f t _ hmem
      simp [isMutationEvent] at hmut
    · rw [hev] at hmem
      rcases List.mem_append.mp hmem with h | h
      · have hmut := resolveRate_no_mutation env f t _ h
        simp [isMutationEvent] at hmut
      · simp at h
    · refine ⟨hok, (resolveRate env f t).2.2,
        Event.deposit u (amount * rate) t :: tail, hev, ?_⟩
      rw [hev] at hmem
      rcases List.mem_append.mp hmem with h | h
      · have hmut := resolveRate_no_mutation env f t _ h
        simp [isMutationEvent] at hmut
      · rcases List.mem_cons.mp h with heq | h
        · cases heq
        · exact h

/-- Witness for C5 at a concrete environment: user 0 holds 10 USD, the
cache resolves USD→EUR at 0.9, and a withdrawal of 50 fails. -/
theorem Exchange_withdraw_before_deposit_witness :
    (exchangeSvc ⟨[(0, "USD", 10)], [(("USD", "EUR"), 9/10)], [], false,
        false, false, false, false, false⟩ 0 "USD" "EUR" 50).1.err
      = some Err.insufficientFunds ∧
    Event.deposit 0 45 "EUR" ∉
      (exchangeSvc ⟨[(0, "USD", 10)], [(("USD", "EUR"), 9/10)], [], false,
        false, false, false, false, false⟩ 0 "USD" "EUR" 50).2.2.2 := by
  have h := (Exchange_withdraw_before_deposit
    ⟨[(0, "USD", 10)], [(("USD", "EUR"), 9/10)], [], false, false, false,
      false, false, false⟩ 0 "USD" "EUR" 50).1
    (9/10) [(("USD", "EUR"), 9/10)] [.cacheGet "USD" "EUR"] Err.noRows
    rfl (by decide)
  exact ⟨h.1, h.2.2 0 45 "EUR"⟩

/-- The resolved rate and the resolution trace agree for any two
environments with the same cache and source contents — in particular they
do not depend on whether the cache write-back fails. -/
theorem resolveRate_congr (e₁ e₂ : Env) (f t : Currency)
    (hc : e₁.cache = e₂.cache) (hs : e₁.source = e₂.source) :
    (resolveRate e₁ f t).1 = (resolveRate e₂ f t).1 ∧
    (resolveRate e₁ f t).2.2 = (resolveRate e₂ f t).2.2 := by
  unfold resolveRate
  rw [hc, hs]
  cases rateLookup e₂.cache f t with
  | some r => exact ⟨rfl, rfl⟩
  | none =>
    cases rateLookup e₂.source f t with
    | none => exact ⟨rfl, rfl⟩
    | some r => exact ⟨rfl, rfl⟩

/-- The result, final store and trace of `Exchange` agree for any two
environments differing only in the cache-write fault. -/
theorem exchangeSvc_congr (e₁ e₂ : Env) (u : UserId) (f t : Currency)
    (amount : Rat) (hwl : e₁.wallets = e₂.wallets) (hc : e₁.cache = e₂.cache)
    (hs : e₁.source = e₂.source) (hwf : e₁.withdrawFault = e₂.withdrawFault)
    (hdf : e₁.depositFault = e₂.depositFault)
    (hrf : e₁.readFault = e₂.readFault) :
    (exchangeSvc e₁ u f t amount).1 = (exchangeSvc e₂ u f t amount).1 ∧
    (exchangeSvc e₁ u f t amount).2.1 = (exchangeSvc e₂ u f t amount).2.1 ∧
    (exchangeSvc e₁ u f t amount).2.2.2 = (exchangeSvc e₂ u f t amount).2.2.2 := by
  have hrw : ∀ w a c, runSaveWithdraw e₁ w u a c = runSaveWithdraw e₂ w u a c := by
    intro w a c
    unfold runSaveWithdraw
    rw [hwf]
  have hrd : ∀ w a c, runSaveDeposit e₁ w u a c = runSaveDeposit e₂ w u a c := by
    intro w a c
    unfold runSaveDeposit
    rw [hdf]
  have hrr : ∀ w, runRead e₁ w u = runRead e₂ w u := by
    intro w
    unfold runRead
    rw [hrf]
  obtain ⟨h1, h2⟩ := resolveRate_congr e₁ e₂ f t hc hs
  rcases hr1 : resolveRate e₁ f t with ⟨ro₁, c₁, evs₁⟩
  rcases hr2 : resolveRate e₂ f t with ⟨ro₂, c₂, evs₂⟩
  rw [hr1, hr2] at h1 h2
  simp only at h1 h2
  subst h1
  subst h2
  unfold exchangeSvc
  rw [hr1, hr2]
  cases ro₁ with
  | none => exact ⟨rfl, hwl, rfl⟩
  | some rate =>
    rw [hwl, hrw]
    cases runSaveWithdraw e₂ e₂.wallets u amount f with
    | error e => exact ⟨rfl, rfl, rfl⟩
    | ok w1 =>
      simp only [hrd]
      cases runSaveDeposit e₂ w1 u (amount * rate) t with
      | error e => exact ⟨rfl, rfl, rfl⟩
      | ok w2 =>
        simp only [hrr]
        cases runRead e₂ w2 u with
        | error e => exact ⟨rfl, rfl, rfl⟩
        | ok m => exact ⟨rfl, rfl, rfl⟩

/-- C6, cache-aside rate resolution: on a cache hit the source is not
called and nothing is written back; on a cache error the source is called
exactly once and, when it succeeds, exactly one write-back attempt is made
and the fetched rate is the result; and a cache-write failure changes
neither the outcome of the resolution nor that of the enclosing Exchange. -/
theorem rate_resolution_cache_aside (env : Env) (f t : Currency) :
    (∀ r, rateLookup env.cache f t = some r →
      resolveRate env f t = (some r, env.cache, [.cacheGet f t])) ∧
    (rateLookup env.cache f t = none →
      (resolveRate env f t).2.2.count (.sourceGet f t) = 1 ∧
      (∀ r, rateLookup env.source f t = some r →
        (resolveRate env f t).1 = some r ∧
        (resolveRate env f t).2.2.count (.cacheSet f t r) = 1)) ∧
    (∀ u amount,
      (exchangeSvc { env with cacheSetFault := true } u f t amount).1
        = (exchangeSvc { env with cacheSetFault := false } u f t amount).1 ∧
      (exchangeSvc { env with cacheSetFault := true } u f t amount).2.1
        = (exchangeSvc { env with cacheSetFault := false } u f t amount).2.1) := by
  refine ⟨?_, ?_, ?_⟩
  · intro r h
    unfold resolveRate
    rw [h]
  · intro h
    constructor
    · unfold resolveRate
      rw [h]
      cases rateLookup env.source f t with
      | none => simp [List.count_cons, List.count_nil]
      | some r => simp [List.count_cons, List.count_nil]
    · intro r hr
      unfold resolveRate
      rw [h, hr]
      refine ⟨rfl, ?_⟩
      simp [List.count_cons, List.count_nil]
  · intro u amount
    have h := exchangeSvc_congr { env with cacheSetFault := true }
      { env with cacheSetFault := false } u f t amount rfl rfl rfl rfl rfl rfl
    exact ⟨h.1, h.2.1⟩

/-- Witness for C6: a hit on a cached USD→EUR rate, and a miss for
RUB→USD that falls back to the source. -/
theorem rate_resolution_cache_aside_witness :
    resolveRate ⟨[], [(("USD", "EUR"), 2)], [(("RUB", "USD"), 3)], false,
        false, false, false, false, false⟩ "USD" "EUR"
      = (some 2, [(("USD", "EUR"), 2)], [.cacheGet "USD" "EUR"]) ∧
    (resolveRate ⟨[], [(("USD", "EUR"), 2)], [(("RUB", "USD"), 3)], false,
        false, false, false, false, false⟩ "RUB" "USD").1 = some 3 := by
  constructor
  · exact (rate_resolution_cache_aside
      ⟨[], [(("USD", "EUR"), 2)], [(("RUB", "USD"), 3)], false, false,
        false, false, false, false⟩ "USD" "EUR").1 2 (by decide)
  · exact (((rate_resolution_cache_aside
      ⟨[], [(("USD", "EUR"), 2)], [(("RUB", "USD"), 3)], false, false,
        false, false, false, false⟩ "RUB" "USD").2.1 (by decide)).2 3
      (by decide)).1

/-- C2 is false as stated: no distinct `PartialExchangeFailure` error
class exists in the code.  When the withdrawal of 100 USD succeeds but the
EUR deposit fails with a storage error, `Exchange` returns that very store
error — the same value `SaveDeposit` produced — while the USD balance is
already debited and no EUR row exists. -/
theorem Exchange_partial_failure_counterexample :
    (exchangeSvc ⟨[(0, "USD", 100)], [(("USD", "EUR"), 1)], [], false,
        false, true, false, false, false⟩ 0 "USD" "EUR" 100).1.err
      = some Err.storage ∧
    runSaveDeposit ⟨[(0, "USD", 100)], [(("USD", "EUR"), 1)], [], false,
        false, true, false, false, false⟩ [(0, "USD", 0)] 0 100 "EUR"
      = .error Err.storage ∧
    (exchangeSvc ⟨[(0, "USD", 100)], [(("USD", "EUR"), 1)], [], false,
        false, true, false, false, false⟩ 0 "USD" "EUR" 100).2.1
      = [(0, "USD", 0)] ∧
    findRow (exchangeSvc ⟨[(0, "USD", 100)], [(("USD", "EUR"), 1)], [],
        false, false, true, false, false, false⟩ 0 "USD" "EUR" 100).2.1
      0 "EUR" = none := by
  refine ⟨rfl, rfl, ?_, rfl⟩
  show [(0, "USD", (100 : Rat) - 100)] = [(0, "USD", 0)]
  norm_num

/-- C2 (amended): when the source-currency withdrawal succeeds but the
target-currency deposit fails, `Exchange` returns the deposit's own store
error unchanged (the code defines no distinct `PartialExchangeFailure`
class), the source balance reflects the debit, and the target balance is
unchanged. -/
theorem Exchange_partial_failure (env : Env) (u : UserId) (f t : Currency)
    (amount b rate : Rat) (cache' : List ((Currency × Currency) × Rat))
    (evs : List Event)
    (hrr : resolveRate env f t = (some rate, cache', evs))
    (hwf : env.withdrawFault = false) (hdf : env.depositFault = true)
    (hb : findRow env.wallets u f = some b) (hle : amount ≤ b)
    (hft : t ≠ f) :
    (exchangeSvc env u f t amount).1.err = some Err.storage ∧
    (exchangeSvc env u f t amount).2.1 = setBal env.wallets u f (b - amount) ∧
    findRow (exchangeSvc env u f t amount).2.1 u f = some (b - amount) ∧
    findRow (exchangeSvc env u f t amount).2.1 u t
      = findRow env.wallets u t := by
  have hw1 : runSaveWithdraw env env.wallets u amount f
      = .ok (setBal env.wallets u f (b - amount)) := by
    unfold runSaveWithdraw
    rw [hwf, saveWithdraw_found_ge hb hle]
    simp
  have hdep : runSaveDeposit env (setBal env.wallets u f (b - amount)) u
      (amount * rate) t = .error Err.storage := by
    unfold runSaveDeposit
    rw [hdf]
    simp
  have hres : exchangeSvc env u f t amount
      = (⟨amount * rate, 0, 0, 0, some Err.storage⟩,
        setBal env.wallets u f (b - amount), cache',
        evs ++ [.withdraw u amount f, .deposit u (amount * rate) t]) := by
    unfold exchangeSvc
    simp only [hrr, hw1, hdep]
  rw [hres]
  refine ⟨rfl, rfl, ?_, ?_⟩
  · exact findRow_setBal_self hb _
  · exact findRow_setBal_other _ (fun hcon => hft hcon.2)

/-- Witness for the amended C2: user 5 holds 70 USD, the cached USD→RUB
rate is 2, the RUB deposit fails. -/
theorem Exchange_partial_failure_witness :
    (exchangeSvc ⟨[(5, "USD", 70)], [(("USD", "RUB"), 2)], [], false,
        false, true, false, false, false⟩ 5 "USD" "RUB" 30).1.err
      = some Err.storage ∧
    findRow (exchangeSvc ⟨[(5, "USD", 70)], [(("USD", "RUB"), 2)], [],
        false, false, true, false, false, false⟩ 5 "USD" "RUB" 30).2.1
      5 "USD" = some (70 - 30) := by
  have h := Exchange_partial_failure
    ⟨[(5, "USD", 70)], [(("USD", "RUB"), 2)], [], false, false, true,
      false, false, false⟩ 5 "USD" "RUB" 30 70 2 [(("USD", "RUB"), 2)]
    [.cacheGet "USD" "RUB"] rfl rfl rfl (by decide) (by decide) (by decide)
  exact ⟨h.1, h.2.2.1⟩

/-- `Event.publish amount` lies in the `publishTransaction` trace exactly
when a Kafka writer is configured and the amount reaches the threshold. -/
theorem publish_mem_publishTransaction (env : Env) (amount : Rat) :
    Event.publish amount ∈ publishTransaction env amount ↔
      env.kafkaConfigured = true ∧ largeAmountThreshold ≤ amount := by
  unfold publishTransaction
  cases hk : env.kafkaConfigured with
  | false => simp
  | true =>
    by_cases ha : amount < largeAmountThreshold
    · simp [ha, not_le.mpr ha]
    · simp [ha, not_lt.mp ha]

/-- The result and final store of `Deposit` agree for environments that
share the wallets and the storage faults — in particular they do not
depend on the Kafka configuration or on publish failures. -/
theorem depositSvc_result_congr (e₁ e₂ : Env) (u : UserId) (amount : Rat)
    (c : Currency) (hwl : e₁.wallets = e₂.wallets)
    (hdf : e₁.depositFault = e₂.depositFault)
    (hrf : e₁.readFault = e₂.readFault) :
    (depositSvc e₁ u amount c).1 = (depositSvc e₂ u amount c).1 ∧
    (depositSvc e₁ u amount c).2.1 = (depositSvc e₂ u amount c).2.1 := by
  have hd : runSaveDeposit e₁ e₁.wallets u amount c
      = runSaveDeposit e₂ e₂.wallets u amount c := by
    unfold runSaveDeposit
    rw [hdf, hwl]
  have hr : ∀ w, runRead e₁ w u = runRead e₂ w u := by
    intro w
    unfold runRead
    rw [hrf]
  unfold depositSvc
  rw [hd]
  cases runSaveDeposit e₂ e₂.wallets u amount c with
  | error e => exact ⟨rfl, hwl⟩
  | ok w' =>
    simp only [hr]
    cases runRead e₂ w' u with
    | error e => exact ⟨rfl, rfl⟩
    | ok m => exact ⟨rfl, rfl⟩

/-- As `depositSvc_result_congr`, for `Withdraw`. -/
theorem withdrawSvc_result_congr (e₁ e₂ : Env) (u : UserId) (amount : Rat)
    (c : Currency) (hwl : e₁.wallets = e₂.wallets)
    (hwf : e₁.withdrawFault = e₂.withdrawFault)
    (hrf : e₁.readFault = e₂.readFault) :
    (withdrawSvc e₁ u amount c).1 = (withdrawSvc e₂ u amount c).1 ∧
    (withdrawSvc e₁ u amount c).2.1 = (withdrawSvc e₂ u amount c).2.1 := by
  have hd : runSaveWithdraw e₁ e₁.wallets u amount c
      = runSaveWithdraw e₂ e₂.wallets u amount c := by
    unfold runSaveWithdraw
    rw [hwf, hwl]
  have hr : ∀ w, runRead e₁ w u = runRead e₂ w u := by
    intro w
    unfold runRead
    rw [hrf]
  unfold withdrawSvc
  rw [hd]
  cases runSaveWithdraw e₂ e₂.wallets u amount c with
  | error e => exact ⟨rfl, hwl⟩
  | ok w' =>
    simp only [hr]
    cases runRead e₂ w' u with
    | error e => exact ⟨rfl, rfl⟩
    | ok m => exact ⟨rfl, rfl⟩

/-- Rate resolution performs no publish. -/
theorem filter_publish_resolveRate (env : Env) (f t : Currency) :
    (resolveRate env f t).2.2.filter isPublishEvent = [] := by
  rw [List.filter_eq_nil_iff]
  intro a ha
  simp [resolveRate_no_publish env f t a ha]

/-- `Exchange` never publishes. -/
theorem exchange_no_publish (env : Env) (u : UserId) (f t : Currency)
    (amount : Rat) :
    (exchangeSvc env u f t amount).2.2.2.filter isPublishEvent = [] := by
  rcases exchangeSvc_events_shape env u f t amount with
    ⟨hev, _⟩ | ⟨hev, _⟩ | ⟨rate, tail, _, _, hev, htail⟩ <;> rw [hev]
  · exact filter_publish_resolveRate env f t
  · rw [List.filter_append, filter_publish_resolveRate]
    rfl
  · rw [List.filter_append, filter_publish_resolveRate]
    rcases htail with rfl | rfl <;> rfl

/-- C7 is false as stated: a successful `Exchange` of 50000 — an amount
above the threshold, with Kafka configured — publishes nothing; and
`Deposit` publishes a transaction of exactly 30000, an amount that does
not exceed the threshold (the code's filter is `amount ≥ threshold`). -/
theorem audit_publish_counterexample :
    ((exchangeSvc ⟨[(0, "USD", 100000)], [(("USD", "EUR"), 1)], [], false,
        false, false, false, true, false⟩ 0 "USD" "EUR" 50000).1.err
        = none ∧
      (exchangeSvc ⟨[(0, "USD", 100000)], [(("USD", "EUR"), 1)], [], false,
        false, false, false, true, false⟩ 0 "USD" "EUR"
        50000).2.2.2.filter isPublishEvent = [] ∧
      largeAmountThreshold < (50000 : Rat)) ∧
    ((depositSvc ⟨[(0, "USD", 100)], [], [], false, false, false, false,
        true, false⟩ 0 30000 "USD").1.err = none ∧
      Event.publish 30000 ∈ (depositSvc ⟨[(0, "USD", 100)], [], [], false,
        false, false, false, true, false⟩ 0 30000 "USD").2.2 ∧
      ¬ largeAmountThreshold < (30000 : Rat)) := by
  exact ⟨⟨rfl, rfl, by decide⟩, ⟨rfl, by decide, by decide⟩⟩

/-- C7 (amended): successful `Deposit` and `Withdraw` calls forward the
transaction to the Kafka publisher exactly when a writer is configured and
the amount is at least the 30000 threshold; `Exchange` never publishes;
and neither a publish failure nor an unconfigured publisher changes any
operation's returned result or error. -/
theorem audit_publish_policy (env : Env) (u : UserId) (amount : Rat)
    (c : Currency) :
    ((depositSvc env u amount c).1.err = none →
      (Event.publish amount ∈ (depositSvc env u amount c).2.2 ↔
        env.kafkaConfigured = true ∧ largeAmountThreshold ≤ amount)) ∧
    ((withdrawSvc env u amount c).1.err = none →
      (Event.publish amount ∈ (withdrawSvc env u amount c).2.2 ↔
        env.kafkaConfigured = true ∧ largeAmountThreshold ≤ amount)) ∧
    (∀ f t, (exchangeSvc env u f t amount).2.2.2.filter isPublishEvent
      = []) ∧
    (∀ b k,
      (depositSvc { env with publishFault := b, kafkaConfigured := k }
          u amount c).1 = (depositSvc env u amount c).1 ∧
      (withdrawSvc { env with publishFault := b, kafkaConfigured := k }
          u amount c).1 = (withdrawSvc env u amount c).1) := by
  refine ⟨?_, ?_, ?_, ?_⟩
  · intro herr
    unfold depositSvc at herr ⊢
    cases hd : runSaveDeposit env env.wallets u amount c with
    | error e => simp only [hd] at herr; simp at herr
    | ok w' =>
      cases hr : runRead env w' u with
      | error e => simp only [hd, hr] at herr; simp at herr
      | ok m =>
        simp only [hd, hr]
        simp [List.mem_append, publish_mem_publishTransaction]
  · intro herr
    unfold withdrawSvc at herr ⊢
    cases hd : runSaveWithdraw env env.wallets u amount c with
    | error e => simp only [hd] at herr; simp at herr
    | ok w' =>
      cases hr : runRead env w' u with
      | error e => simp only [hd, hr] at herr; simp at herr
      | ok m =>
        simp only [hd, hr]
        simp [List.mem_append, publish_mem_publishTransaction]
  · intro f t
    exact exchange_no_publish env u f t amount
  · intro b k
    exact ⟨(depositSvc_result_congr
        { env with publishFault := b, kafkaConfigured := k } env u amount c
        rfl rfl rfl).1,
      (withdrawSvc_result_congr
        { env with publishFault := b, kafkaConfigured := k } env u amount c
        rfl rfl rfl).1⟩

/-- Witness for the amended C7: a deposit of 40000 with Kafka configured
publishes, and a parallel Exchange publishes nothing. -/
theorem audit_publish_policy_witness :
    Event.publish 40000 ∈ (depositSvc ⟨[(1, "USD", 5)], [], [], false,
      false, false, false, true, false⟩ 1 40000 "USD").2.2 ∧
    (exchangeSvc ⟨[(1, "USD", 5)], [], [], false, false, false, false,
      true, false⟩ 1 "USD" "EUR" 40000).2.2.2.filter isPublishEvent
      = [] := by
  have h := audit_publish_policy ⟨[(1, "USD", 5)], [], [], false, false,
    false, false, true, false⟩ 1 40000 "USD"
  exact ⟨(h.1 rfl).mpr (by decide), h.2.2.1 "USD" "EUR"⟩

/-- After `SaveDeposit` the (user, currency) row holds its previous value
(0 when absent) plus the deposited amount. -/
theorem saveDeposit_findRow_self (w : Wallets) (u : UserId) (a : Rat)
    (c : Currency) :
    findRow (saveDeposit w u a c).1 u c
      = some ((findRow w u c).getD 0 + a) := by
  cases h : findRow w u c with
  | some b =>
    rw [saveDeposit_found h]
    exact findRow_setBal_self h _
  | none =>
    rw [saveDeposit_notFound h, findRow_append_self h]
    norm_num

/-- `SaveDeposit` leaves every other (user, currency) row unchanged. -/
theorem saveDeposit_findRow_other (w : Wallets) (u : UserId) (a : Rat)
    (c : Currency) {u' : UserId} {c' : Currency}
    (h : ¬(u' = u ∧ c' = c)) :
    findRow (saveDeposit w u a c).1 u' c' = findRow w u' c' := by
  cases hf : findRow w u c with
  | some b =>
    rw [saveDeposit_found hf]
    exact findRow_setBal_other _ h
  | none =>
    rw [saveDeposit_notFound hf]
    exact findRow_append_other w u c a h

/-- `SaveDeposit` preserves key uniqueness. -/
theorem WF_saveDeposit {w : Wallets} (hw : WF w) (u : UserId) (a : Rat)
    (c : Currency) : WF (saveDeposit w u a c).1 := by
  cases hf : findRow w u c with
  | some b =>
    rw [saveDeposit_found hf]
    exact WF_setBal hw u c _
  | none =>
    rw [saveDeposit_notFound hf]
    exact WF_append_one hw hf a

/-- C8 is false as stated: the exchange path validates no currency code.
"XXX" is outside the handler's whitelist, yet — with a cached XXX→EUR
rate — the exchange request passes the handler (only `amount > 0` is
checked), reaches the store, and issues a withdrawal in currency "XXX". -/
theorem exchange_unvalidated_currency :
    validCurrency "XXX" = false ∧
    (exchangeHandler ⟨[(0, "XXX", 100)], [(("XXX", "EUR"), 1)], [], false,
        false, false, false, false, false⟩ true true 0 "XXX" "EUR" 100).1
      = HStatus.okResp ∧
    Event.withdraw 0 100 "XXX" ∈
      (exchangeHandler ⟨[(0, "XXX", 100)], [(("XXX", "EUR"), 1)], [],
        false, false, false, false, false, false⟩ true true 0 "XXX" "EUR"
        100).2.2 := by
  refine ⟨rfl, rfl, by decide⟩

/-- C8 (amended): the exchange handler validates only `amount > 0` before
calling the service, rejecting nonpositive amounts with 400 and no
collaborator call; currency recognition is not checked anywhere on the
exchange path, so a request with an unrecognized code proceeds to rate
resolution and, whenever a rate resolves, to the store — storage stays
untouched only when rate resolution fails. -/
theorem exchange_request_validation (env : Env) (u : UserId)
    (f t : Currency) (amount : Rat) :
    (amount ≤ 0 →
      exchangeHandler env true true u f t amount
        = (.badRequest, env.wallets, [])) ∧
    ((resolveRate env f t).1 = none →
      (∀ ev ∈ (exchangeSvc env u f t amount).2.2.2,
        isMutationEvent ev = false) ∧
      (exchangeSvc env u f t amount).2.1 = env.wallets) := by
  constructor
  · intro h
    unfold exchangeHandler
    simp [h]
  · intro h
    rcases hrr : resolveRate env f t with ⟨ro, c', evs⟩
    rw [hrr] at h
    have h' : ro = none := h
    subst h'
    have hev_eq : (exchangeSvc env u f t amount).2.2.2 = evs := by
      unfold exchangeSvc
      rw [hrr]
    have hw_eq : (exchangeSvc env u f t amount).2.1 = env.wallets := by
      unfold exchangeSvc
      rw [hrr]
    refine ⟨?_, hw_eq⟩
    intro ev hev
    rw [hev_eq] at hev
    refine resolveRate_no_mutation env f t ev ?_
    rw [hrr]
    exact hev

/-- Witness for the amended C8: a nonpositive amount is rejected before
any call, and with no rate available the store is untouched. -/
theorem exchange_request_validation_witness :
    exchangeHandler ⟨[(2, "USD", 8)], [], [], false, false, false, false,
        false, false⟩ true true 2 "USD" "EUR" (-5)
      = (.badRequest, [(2, "USD", 8)], []) ∧
    (exchangeSvc ⟨[(2, "USD", 8)], [], [], false, false, false, false,
        false, false⟩ 2 "USD" "EUR" 5).2.1 = [(2, "USD", 8)] := by
  constructor
  · exact (exchange_request_validation ⟨[(2, "USD", 8)], [], [], false,
      false, false, false, false, false⟩ 2 "USD" "EUR" (-5)).1 (by decide)
  · exact ((exchange_request_validation ⟨[(2, "USD", 8)], [], [], false,
      false, false, false, false, false⟩ 2 "USD" "EUR" 5).2 (by decide)).2

/-- C9, Exchange conservation on the happy path: with a cached USD→EUR
rate of 0.9 (exactly 9/10 — the embedding computes in exact rationals;
the Go float32 product `float32(100) * 0.9f` also rounds to exactly 90)
and a user holding b ≥ 100 USD, `Exchange(u, "USD", "EUR", 100)` succeeds,
returns a converted amount of exactly 90, a USD balance decreased by
exactly 100 and a EUR balance increased by exactly 90. -/
theorem exchange_conservation (env : Env) (u : UserId) (b : Rat)
    (hc : rateLookup env.cache "USD" "EUR" = some (9/10))
    (hwf : env.withdrawFault = false) (hdf : env.depositFault = false)
    (hrf : env.readFault = false) (hW : WF env.wallets)
    (hb : findRow env.wallets u "USD" = some b) (hge : (100 : Rat) ≤ b) :
    (exchangeSvc env u "USD" "EUR" 100).1.err = none ∧
    (exchangeSvc env u "USD" "EUR" 100).1.exchanged = 90 ∧
    (exchangeSvc env u "USD" "EUR" 100).1.usd = b - 100 ∧
    (exchangeSvc env u "USD" "EUR" 100).1.eur
      = (findRow env.wallets u "EUR").getD 0 + 90 ∧
    findRow (exchangeSvc env u "USD" "EUR" 100).2.1 u "USD"
      = some (b - 100) := by
  have hex : (100 : Rat) * (9/10) = 90 := by norm_num
  have hrr : resolveRate env "USD" "EUR"
      = (some (9/10), env.cache, [.cacheGet "USD" "EUR"]) := by
    unfold resolveRate
    rw [hc]
  have hw1 : runSaveWithdraw env env.wallets u 100 "USD"
      = .ok (setBal env.wallets u "USD" (b - 100)) := by
    unfold runSaveWithdraw
    rw [hwf, saveWithdraw_found_ge hb hge]
    simp
  have hW1 : WF (setBal env.wallets u "USD" (b - 100)) :=
    WF_setBal hW u "USD" _
  have hfr1usd : findRow (setBal env.wallets u "USD" (b - 100)) u "USD"
      = some (b - 100) := findRow_setBal_self hb _
  have hfr1eur : findRow (setBal env.wallets u "USD" (b - 100)) u "EUR"
      = findRow env.wallets u "EUR" :=
    findRow_setBal_other _ (fun hcon => by
      exact absurd hcon.2 (by decide))
  have hd : runSaveDeposit env (setBal env.wallets u "USD" (b - 100)) u
      (100 * (9/10)) "EUR"
      = .ok (saveDeposit (setBal env.wallets u "USD" (b - 100)) u
          (100 * (9/10)) "EUR").1 := by
    unfold runSaveDeposit
    rw [hdf]
    simp
  have hW2 : WF (saveDeposit (setBal env.wallets u "USD" (b - 100)) u
      (100 * (9/10)) "EUR").1 := WF_saveDeposit hW1 u _ "EUR"
  have husd2 : findRow (saveDeposit (setBal env.wallets u "USD" (b - 100))
      u (100 * (9/10)) "EUR").1 u "USD" = some (b - 100) := by
    rw [saveDeposit_findRow_other _ u _ "EUR"
      (fun hcon => by exact absurd hcon.2 (by decide)), hfr1usd]
  have heur2 : findRow (saveDeposit (setBal env.wallets u "USD" (b - 100))
      u (100 * (9/10)) "EUR").1 u "EUR"
      = some ((findRow env.wallets u "EUR").getD 0 + 100 * (9/10)) := by
    rw [saveDeposit_findRow_self, hfr1eur]
  have hread : runRead env (saveDeposit (setBal env.wallets u "USD"
      (b - 100)) u (100 * (9/10)) "EUR").1 u
      = .ok (getByUserID (saveDeposit (setBal env.wallets u "USD"
          (b - 100)) u (100 * (9/10)) "EUR").1 u) := by
    unfold runRead
    rw [hrf]
    simp
  have hres : exchangeSvc env u "USD" "EUR" 100
      = (⟨100 * (9/10),
          mapGet (getByUserID (saveDeposit (setBal env.wallets u "USD"
            (b - 100)) u (100 * (9/10)) "EUR").1 u) "USD",
          mapGet (getByUserID (saveDeposit (setBal env.wallets u "USD"
            (b - 100)) u (100 * (9/10)) "EUR").1 u) "RUB",
          mapGet (getByUserID (saveDeposit (setBal env.wallets u "USD"
            (b - 100)) u (100 * (9/10)) "EUR").1 u) "EUR", none⟩,
        (saveDeposit (setBal env.wallets u "USD" (b - 100)) u
          (100 * (9/10)) "EUR").1, env.cache,
        [.cacheGet "USD" "EUR", .withdraw u 100 "USD",
          .deposit u (100 * (9/10)) "EUR", .readBalances u]) := by
    unfold exchangeSvc
    simp only [hrr, hw1, hd, hread]
    rfl
  rw [hres]
  refine ⟨rfl, hex, ?_, ?_, husd2⟩
  · show mapGet (getByUserID _ u) "USD" = b - 100
    rw [mapGet_getByUserID hW2, husd2]
    rfl
  · show mapGet (getByUserID _ u) "EUR"
      = (findRow env.wallets u "EUR").getD 0 + 90
    rw [mapGet_getByUserID hW2, heur2, hex]
    rfl

/-- Witness for C9: user 0 holds exactly 100 USD and 5 EUR. -/
theorem exchange_conservation_witness :
    (exchangeSvc ⟨[(0, "USD", 100), (0, "EUR", 5)],
        [(("USD", "EUR"), 9/10)], [], false, false, false, false, false,
        false⟩ 0 "USD" "EUR" 100).1.err = none ∧
    (exchangeSvc ⟨[(0, "USD", 100), (0, "EUR", 5)],
        [(("USD", "EUR"), 9/10)], [], false, false, false, false, false,
        false⟩ 0 "USD" "EUR" 100).1.exchanged = 90 ∧
    (exchangeSvc ⟨[(0, "USD", 100), (0, "EUR", 5)],
        [(("USD", "EUR"), 9/10)], [], false, false, false, false, false,
        false⟩ 0 "USD" "EUR" 100).1.usd = 100 - 100 ∧
    (exchangeSvc ⟨[(0, "USD", 100), (0, "EUR", 5)],
        [(("USD", "EUR"), 9/10)], [], false, false, false, false, false,
        false⟩ 0 "USD" "EUR" 100).1.eur
      = (findRow [(0, "USD", (100 : Rat)), (0, "EUR", 5)] 0 "EUR").getD 0
          + 90 := by
  have h := exchange_conservation ⟨[(0, "USD", 100), (0, "EUR", 5)],
    [(("USD", "EUR"), 9/10)], [], false, false, false, false, false,
    false⟩ 0 100 rfl rfl rfl rfl (by decide) rfl (by decide)
  exact ⟨h.1, h.2.1, h.2.2.1, h.2.2.2.1⟩

/-- C10: the Wallet service's `Deposit` validates nothing — any amount,
negative included, is forwarded to the store, whose upsert adds it
unconditionally, so a deposit of a negative amount succeeds and strictly
decreases the stored balance (below zero when the amount's magnitude
exceeds the balance); the `amount > 0` / currency-whitelist guard lives
only in the HTTP deposit handler. -/
theorem deposit_no_validation (env : Env) (u : UserId) (amount b : Rat)
    (c : Currency) (hneg : amount < 0)
    (hdf : env.depositFault = false) (hrf : env.readFault = false)
    (hb : findRow env.wallets u c = some b) :
    (depositSvc env u amount c).1.err = none ∧
    findRow (depositSvc env u amount c).2.1 u c = some (b + amount) ∧
    b + amount < b ∧
    (∀ env' : Env, ∀ a' : Rat, a' ≤ 0 → ∀ u' : UserId, ∀ c'' : Currency,
      depositHandler env' true true u' a' c''
        = (.badRequest, env'.wallets, [])) := by
  have hd : runSaveDeposit env env.wallets u amount c
      = .ok (saveDeposit env.wallets u amount c).1 := by
    unfold runSaveDeposit
    rw [hdf]
    simp
  have hread : runRead env (saveDeposit env.wallets u amount c).1 u
      = .ok (getByUserID (saveDeposit env.wallets u amount c).1 u) := by
    unfold runRead
    rw [hrf]
    simp
  have hres : depositSvc env u amount c
      = (⟨mapGet (getByUserID (saveDeposit env.wallets u amount c).1 u)
            "USD",
          mapGet (getByUserID (saveDeposit env.wallets u amount c).1 u)
            "RUB",
          mapGet (getByUserID (saveDeposit env.wallets u amount c).1 u)
            "EUR", none⟩,
        (saveDeposit env.wallets u amount c).1,
        [.deposit u amount c, .readBalances u]
          ++ publishTransaction env amount) := by
    unfold depositSvc
    simp only [hd, hread]
  refine ⟨by rw [hres], ?_, by linarith, ?_⟩
  · rw [hres, saveDeposit_findRow_self, hb]
    rfl
  · intro env' a' ha' u' c''
    unfold depositHandler
    simp [ha']

/-- Witness for C10: user 0 holds 30 USD; a deposit of −50 succeeds and
leaves a negative balance. -/
theorem deposit_no_validation_witness :
    (depositSvc ⟨[(0, "USD", 30)], [], [], false, false, false, false,
      false, false⟩ 0 (-50) "USD").1.err = none ∧
    findRow (depositSvc ⟨[(0, "USD", 30)], [], [], false, false, false,
      false, false, false⟩ 0 (-50) "USD").2.1 0 "USD"
      = some (30 + (-50)) ∧
    (30 : Rat) + (-50) < 0 := by
  have h := deposit_no_validation ⟨[(0, "USD", 30)], [], [], false, false,
    false, false, false, false⟩ 0 (-50) 30 "USD" (by decide) rfl rfl
    (by decide)
  exact ⟨h.1, h.2.1, by norm_num⟩

end GwWallet
